import Mathlib

set_option maxRecDepth 4000
set_option allowUnsafeReducibility true
attribute [local semireducible] Rat.add Rat.mul Rat.sub Rat.inv Rat.ofScientific

/-!
Verification of the interleaved-pedestal finder
(`lstchain/scripts/lstchain_find_pedestals.py`).

Shallow embedding conventions:
* real-valued quantities (timestamps, periods, phases, intensities,
  concentrations) are modelled as exact rationals `ℚ`; the float constant
  `0.1` is modelled as `1/10`, `1e-7` as `1/10000000`, `3e4` as `30000`,
  `0.005` as `1/200`;
* a NaN-able table column is `List (Option ℚ)` with `none` standing for NaN
  (a NaN comparison in numpy is false; `intensity[np.isnan(intensity)] = 0`
  is `Option.getD 0`);
* Python's `%` on nonnegative-period reals is `pymod`;
* `np.histogram(xs, bins=n, range=(lo, hi))` is `npHistogram`: `n` equal
  bins over `[lo, hi]`, every bin half-open `[e_j, e_{j+1})` except the
  last, which is closed; samples outside the range are not counted; an
  integer `bins` that is not positive raises `ValueError`, modelled by
  `none`;
* numpy integer indexing `a[k]` is `npGet`: a negative index wraps around
  once (`a[-1]` is the last element), an index out of `[-len, len)` raises
  `IndexError`, modelled by `none`; fallible code returns `Option`;
* `np.argsort` (default kind) is modelled by the stable ascending
  `List.insertionSort` of the index range; numpy's default quicksort leaves
  the relative order of equal keys unspecified, the stable sort is the
  concrete deterministic realization used here (the reversal by `np.flip`
  is kept explicit in `removeBrightest`);
* the IO shell of `main` (file discovery, hdf5 reading/writing, printing)
  is out of scope; `pipeline` embeds its mask computation for one sub-run
  table.
-/

/-- Python `x % P` for real operands: `x - P * floor (x / P)`.
For `P > 0` the result lies in `[0, P)`. -/
def pymod (x P : ℚ) : ℚ := x - P * ⌊x / P⌋

/-- Maximum entry of a list of counts, `np.max` (0 on the empty list, which
never occurs on the paths where the source calls it). -/
def listMax (l : List ℕ) : ℕ := l.foldl max 0

/-- Helper for `argmax`: current index, best index and best value so far. -/
def argmaxAux : List ℕ → ℕ → ℕ → ℕ → ℕ
  | [], _, bi, _ => bi
  | x :: xs, i, bi, bv => if bv < x then argmaxAux xs (i + 1) i x else argmaxAux xs (i + 1) bi bv

/-- Index of the first occurrence of the maximum, `np.argmax`.
(`np.argmax` on an empty array raises; on that path `windowSelect` aborts
via `npGet` instead.) -/
def argmax : List ℕ → ℕ
  | [] => 0
  | x :: xs => argmaxAux xs 1 0 x

/-- numpy integer indexing into a 1-d array: `0 ≤ k < len` reads directly,
`-len ≤ k < 0` wraps around once, anything else raises `IndexError`
(modelled as `none`). -/
def npGet {α : Type} (l : List α) (k : ℤ) : Option α :=
  if 0 ≤ k then l[k.toNat]?
  else if 0 ≤ k + (l.length : ℤ) then l[(k + (l.length : ℤ)).toNat]?
  else none

/-- Whether sample `x` falls in bin `j` of an `n`-bin numpy histogram over
`[lo, hi]`: bins are `[e_j, e_{j+1})`, the last one `[e_{n-1}, hi]`. -/
def inBin (n j : ℕ) (lo hi x : ℚ) : Bool :=
  if j + 1 = n then decide (lo + (j : ℚ) * ((hi - lo) / n) ≤ x ∧ x ≤ hi)
  else decide (lo + (j : ℚ) * ((hi - lo) / n) ≤ x ∧ x < lo + ((j : ℚ) + 1) * ((hi - lo) / n))

/-- Bin counts of `np.histogram(xs, bins=n, range=(lo, hi))`. -/
def histogram (xs : List ℚ) (n : ℕ) (lo hi : ℚ) : List ℕ :=
  (List.range n).map (fun j => (xs.filter (inBin n j lo hi)).length)

/-- The `n + 1` equally spaced bin edges over `[lo, hi]` that
`np.histogram` returns. -/
def histEdges (n : ℕ) (lo hi : ℚ) : List ℚ :=
  (List.range (n + 1)).map (fun j : ℕ => lo + (j : ℚ) * ((hi - lo) / n))

/-- `np.histogram` with an integer `bins` argument: raises `ValueError`
(`none`) unless `0 < n`, else returns the counts and the edges. -/
def npHistogram (xs : List ℚ) (n : ℕ) (lo hi : ℚ) : Option (List ℕ × List ℚ) :=
  if n = 0 then none else some (histogram xs n lo hi, histEdges n lo hi)

/-- The period grid `np.linspace(-50, 50, 101)`: the integers `-50 .. 50`
(the linspace is exactly integer-valued), scanned in ascending order. -/
def period_step_range : List ℤ := (List.range 101).map (fun k : ℕ => (k : ℤ) - 50)

/-- Trial period of grid index `i`: `period_mean + i * period_step_width`
with `period_step_width = 1e-7 s`. -/
def trialPeriod (pm : ℚ) (i : ℤ) : ℚ := pm + (i : ℚ) * (1 / 10000000)

/-- Running best of the period loop: `max_peak` (initially 0) and the
`best_period`, `best_contents`, `best_bins` variables (initially `None`). -/
structure SearchState where
  max_peak : ℕ
  best_period : Option ℚ
  best_contents : Option (List ℕ)
  best_bins : Option (List ℚ)
deriving DecidableEq

/-- Bin counts the period loop computes for grid index `i`: fold the
timestamps by the trial period, histogram over the fixed range
`(0, period_mean)`. -/
def trialContents (ts : List ℚ) (nbins : ℕ) (pm : ℚ) (i : ℤ) : List ℕ :=
  histogram (ts.map (fun t => pymod t (trialPeriod pm i))) nbins 0 pm

/-- Peak height `np.max(contents)` of the trial histogram at grid index `i`. -/
def periodScore (ts : List ℚ) (nbins : ℕ) (pm : ℚ) (i : ℤ) : ℕ :=
  listMax (trialContents ts nbins pm i)

/-- One iteration of the period loop (`for i in period_step_range`):
`tmod = timestamps % (period_mean + i * period_step_width)`;
`contents, bins = np.histogram(tmod, bins=nbins, range=(0, period_mean))`;
skip when `np.max(contents) < max_peak`, else record the new best. -/
def periodStep (ts : List ℚ) (nbins : ℕ) (pm : ℚ) (st : SearchState) (i : ℤ) :
    Option SearchState := do
  let cb ← npHistogram (ts.map (fun t => pymod t (trialPeriod pm i))) nbins 0 pm
  if listMax cb.1 < st.max_peak then pure st
  else pure ⟨listMax cb.1, some (trialPeriod pm i), some cb.1, some cb.2⟩

/-- Total version of `periodStep` (no histogram failure), used to reason
about the loop when `nbins ≠ 0`. -/
def periodStepT (ts : List ℚ) (nbins : ℕ) (pm : ℚ) (st : SearchState) (i : ℤ) : SearchState :=
  if periodScore ts nbins pm i < st.max_peak then st
  else ⟨periodScore ts nbins pm i, some (trialPeriod pm i),
        some (trialContents ts nbins pm i), some (histEdges nbins 0 pm)⟩

/-- The period loop of `find_pedestals` (source lines 127-136), with
`period_mean = 1 / aprox_frequency` and
`nbins = int(len(timestamps) / average_nevents_per_bin)`,
`average_nevents_per_bin = 1`. -/
def periodSearch (ts : List ℚ) (freq : ℚ) : Option SearchState :=
  period_step_range.foldlM (periodStep ts ts.length (1 / freq)) ⟨0, none, none, none⟩

/-- The phase grid `np.linspace(0, best_period, 1000)`: the 1000 points
`k * (best_period / 999)`, `k = 0 .. 999` (endpoint included). -/
def phaseGrid (P : ℚ) : List ℚ :=
  (List.range 1000).map (fun k : ℕ => (k : ℚ) * (P / 999))

/-- Running best of the phase loop: `max_peak` (re-initialized to 0),
`best_phase` (initialized to 0), and the `best_contents`, `best_bins`
variables carried over from the period stage. -/
structure PhaseState where
  max_peak : ℕ
  best_phase : ℚ
  best_contents : List ℕ
  best_bins : List ℚ
deriving DecidableEq

/-- Bin counts the phase loop computes for trial phase `ph`:
`tmod = (timestamps + phase) % best_period`, histogram over
`(0, best_period)`. -/
def phaseContents (ts : List ℚ) (nbins : ℕ) (bp : ℚ) (ph : ℚ) : List ℕ :=
  histogram (ts.map (fun t => pymod (t + ph) bp)) nbins 0 bp

/-- Peak height of the trial histogram at phase `ph`. -/
def phaseScore (ts : List ℚ) (nbins : ℕ) (bp : ℚ) (ph : ℚ) : ℕ :=
  listMax (phaseContents ts nbins bp ph)

/-- One iteration of the phase loop (`for phase in np.linspace(0,
best_period, steps)`), same strict-skip update as the period loop. -/
def phaseStep (ts : List ℚ) (nbins : ℕ) (bp : ℚ) (st : PhaseState) (ph : ℚ) :
    Option PhaseState := do
  let cb ← npHistogram (ts.map (fun t => pymod (t + ph) bp)) nbins 0 bp
  if listMax cb.1 < st.max_peak then pure st
  else pure ⟨listMax cb.1, ph, cb.1, cb.2⟩

/-- Total version of `phaseStep`, used to reason about the loop when
`nbins ≠ 0`. -/
def phaseStepT (ts : List ℚ) (nbins : ℕ) (bp : ℚ) (st : PhaseState) (ph : ℚ) : PhaseState :=
  if phaseScore ts nbins bp ph < st.max_peak then st
  else ⟨phaseScore ts nbins bp ph, ph, phaseContents ts nbins bp ph, histEdges nbins 0 bp⟩

/-- The phase loop of `find_pedestals` (source lines 140-152); `c0`, `b0`
are the values of `best_contents`, `best_bins` left by the period stage. -/
def phaseSearch (ts : List ℚ) (nbins : ℕ) (bp : ℚ) (c0 : List ℕ) (b0 : List ℚ) :
    Option PhaseState :=
  (phaseGrid bp).foldlM (phaseStep ts nbins bp) ⟨0, 0, c0, b0⟩

/-- The window selector of `find_pedestals` (source lines 156-169):
`ibin = np.argmax(best_contents)`; extend one bin left / right when the
neighbor holds more than `0.1 *` the peak (the index arithmetic is the
source's, unguarded: `best_contents[ibin - 1]` wraps around for
`ibin = 0`, `best_contents[ibin + 1]` raises for the last bin); the mask
keeps `minval < tmod < maxval`. -/
def windowSelect (contents : List ℕ) (bins : List ℚ) (tmod : List ℚ) : Option (List Bool) := do
  let ibin := argmax contents
  let peak ← npGet contents (ibin : ℤ)
  let left ← npGet contents ((ibin : ℤ) - 1)
  let ifirst : ℤ := if (1 / 10 : ℚ) * (peak : ℚ) < (left : ℚ) then (ibin : ℤ) - 1 else (ibin : ℤ)
  let right ← npGet contents ((ibin : ℤ) + 1)
  let ilast : ℤ := if (1 / 10 : ℚ) * (peak : ℚ) < (right : ℚ) then (ibin : ℤ) + 1 else (ibin : ℤ)
  let minval ← npGet bins ifirst
  let maxval ← npGet bins (ilast + 1)
  pure (tmod.map (fun t => decide (minval < t ∧ t < maxval)))

/-- `find_pedestals(timestamps, aprox_frequency)` (source lines 89-169):
period search, phase search, final fold `(timestamps + best_phase) %
best_period`, window selection. Returns the candidate mask, or `none`
when a numpy call raises. -/
def find_pedestals (timestamps : List ℚ) (aprox_frequency : ℚ) : Option (List Bool) := do
  let st ← periodSearch timestamps aprox_frequency
  let bp ← st.best_period
  let c0 ← st.best_contents
  let b0 ← st.best_bins
  let ps ← phaseSearch timestamps timestamps.length bp c0 b0
  let tmod := timestamps.map (fun t => pymod (t + ps.best_phase) bp)
  windowSelect ps.best_contents ps.best_bins tmod

/-- One sub-run event table: the columns `main` reads. `none` in a real
column stands for NaN. -/
structure EventTable where
  event_id : List ℕ
  dragon_time : List ℚ
  intensity : List (Option ℚ)
  concentration_pixel : List (Option ℚ)
deriving DecidableEq

/-- The flat-field pre-filter of one event:
`intensity > 3e4 and concentration_pixel < 0.005` (a comparison with NaN
is false). -/
def isExcluded (i c : Option ℚ) : Bool :=
  (match i with | some v => decide ((30000 : ℚ) < v) | none => false)
    && (match c with | some v => decide (v < 1 / 200) | none => false)

/-- `ffmask` of `main` (source lines 53-54). -/
def ffmaskOf (tbl : EventTable) : List Bool :=
  List.zipWith isExcluded tbl.intensity tbl.concentration_pixel

/-- numpy boolean-mask selection `xs[mask]`. -/
def maskedSelect {α : Type} (mask : List Bool) (xs : List α) : List α :=
  (List.zip mask xs).filterMap (fun p => if p.1 then some p.2 else none)

/-- `all_times[~ffmask]`: the candidate timestamps fed to
`find_pedestals`. -/
def candTimes (tbl : EventTable) : List ℚ :=
  maskedSelect ((ffmaskOf tbl).map not) tbl.dragon_time

/-- `pedmask = len(table) * [False]; pedmask[~ffmask] = sub`: scatter the
candidate mask back to full length, excluded positions stay `False`. -/
def scatter : List Bool → List Bool → List Bool
  | [], _ => []
  | true :: fs, sub => false :: scatter fs sub
  | false :: fs, [] => false :: scatter fs []
  | false :: fs, b :: sub => b :: scatter fs sub

/-- `intensity[np.isnan(intensity)] = 0`: the intensity column with NaN
replaced by 0 for ranking. -/
def nanToZero (l : List (Option ℚ)) : List ℚ := l.map (fun o => o.getD 0)

/-- Value of index `i` in the ranking array (0 out of range; never hit on
the in-range indices the code uses). -/
def val0 (vals : List ℚ) (i : ℕ) : ℚ := (vals[i]?).getD 0

/-- `np.argsort(vals)`: the index range stably sorted by ascending value
(see the header note on numpy's unstable default tie order). -/
def argsort (vals : List ℚ) : List ℕ :=
  List.insertionSort (fun i j => val0 vals i ≤ val0 vals j) (List.range vals.length)

/-- `decreasing_intensity_ordered_indices = np.flip(np.argsort(intensity))`
(source line 69). -/
def decOrder (vals : List ℚ) : List ℕ := (argsort vals).reverse

/-- `remove_indices[:10]` (source lines 70-73): the first 10 indices of the
brightest-first order whose mask entry is `True`
(`pedmask2 = pedmask[dec]; remove_indices = dec[pedmask2]`). -/
def removeIdxOf (pedmask : List Bool) (vals : List ℚ) : List ℕ :=
  ((decOrder vals).filter (fun j => (pedmask[j]?).getD false)).take 10

/-- The contamination remover of `main` (source lines 65-73):
`pedmask[remove_indices[:10]] = False`. -/
def removeBrightest (pedmask : List Bool) (vals : List ℚ) : List Bool :=
  (List.range pedmask.length).map
    (fun i => if (removeIdxOf pedmask vals).contains i then false
      else (pedmask[i]?).getD false)

/-- `approximate_frequency` selection of `main` (source lines 45-47):
50 Hz, or 100 Hz for runs after 2708. -/
def nominalFrequency (run_number : ℕ) : ℚ := if 2708 < run_number then 100 else 50

/-- The full-length pedestal mask right after the scatter (before the
contamination remover), `none` when `find_pedestals` raises. -/
def pedmaskOf (tbl : EventTable) (run_number : ℕ) : Option (List Bool) := do
  let sub ← find_pedestals (candTimes tbl) (nominalFrequency run_number)
  pure (scatter (ffmaskOf tbl) sub)

/-- The final `SelectionMask` one sub-run of `main` computes (source lines
49-73): pre-filter, period/phase search, scatter, contamination removal. -/
def pipeline (tbl : EventTable) (run_number : ℕ) : Option (List Bool) :=
  (pedmaskOf tbl run_number).map (fun pm => removeBrightest pm (nanToZero tbl.intensity))

/-- Modelled from the spec, for the refinement comparison of claim C2
(spec section 4.2 says the trial histogram ranges over the
hypothesis-dependent interval `[0, P_i)`): the bin counts of grid index
`i` with the histogram range `(0, trialPeriod pm i)` instead of the
code's fixed `(0, pm)`. -/
def trialContentsSpecRange (ts : List ℚ) (nbins : ℕ) (pm : ℚ) (i : ℤ) : List ℕ :=
  histogram (ts.map (fun t => pymod t (trialPeriod pm i))) nbins 0 (trialPeriod pm i)

/-- Modelled from the spec, for the refinement comparison of claim C4
(spec sections 4.5 and 8 say the removed events are the `min(10, T)`
highest-intensity selected events with ties broken by stable original
order): remove the first 10 selected indices in the stable
highest-intensity-first, lowest-index-first order. -/
def removeBrightestStable (pedmask : List Bool) (vals : List ℚ) : List Bool :=
  let dec := List.insertionSort (fun i j => val0 vals j ≤ val0 vals i)
    ((List.range pedmask.length).filter (fun j => (pedmask[j]?).getD false))
  let removeIdx := dec.take 10
  (List.range pedmask.length).map
    (fun i => if removeIdx.contains i then false else (pedmask[i]?).getD false)

/-- Concrete three-event sub-run table used by the witnesses: event 0 is
flat-field-like (intensity 40000, concentration 1/1000, so the pre-filter
excludes it), events 1 and 2 are candidate events with equal timestamps. -/
def wtbl : EventTable :=
  ⟨[0, 1, 2], [5, 0, 0], [some 40000, some 1, some 1], [some (1 / 1000), some 1, some 1]⟩

/-- Empty sub-run table used by the determinism witness. -/
def etbl : EventTable := ⟨[], [], [], []⟩

/-! ## Basic facts about the numeric helpers -/

theorem pymod_eq_fract (x P : ℚ) (hP : P ≠ 0) : pymod x P = P * Int.fract (x / P) := by
  rw [pymod, Int.fract, mul_sub, mul_div_cancel₀ _ hP]

theorem pymod_nonneg (x P : ℚ) (hP : 0 < P) : 0 ≤ pymod x P := by
  rw [pymod_eq_fract x P (ne_of_gt hP)]
  exact mul_nonneg hP.le (Int.fract_nonneg _)

theorem pymod_lt (x P : ℚ) (hP : 0 < P) : pymod x P < P := by
  rw [pymod_eq_fract x P (ne_of_gt hP)]
  calc P * Int.fract (x / P) < P * 1 :=
        (mul_lt_mul_left hP).mpr (Int.fract_lt_one _)
    _ = P := mul_one P

theorem foldl_max_le {α : Type} (f : α → ℕ) (b : ℕ) :
    ∀ (l : List α) (a : ℕ), a ≤ b → (∀ i ∈ l, f i ≤ b) →
      l.foldl (fun a i => max a (f i)) a ≤ b
  | [], a, ha, _ => ha
  | i :: l, a, ha, h => by
    rw [List.foldl_cons]
    exact foldl_max_le f b l (max a (f i)) (max_le ha (h i (List.mem_cons_self i l)))
      (fun j hj => h j (List.mem_cons_of_mem i hj))

/-! ## The period loop: bridging the fallible fold to the total fold, and
the running-best characterization -/

theorem periodStep_eq (ts : List ℚ) (nbins : ℕ) (pm : ℚ) (hn : nbins ≠ 0)
    (st : SearchState) (i : ℤ) :
    periodStep ts nbins pm st i = some (periodStepT ts nbins pm st i) := by
  simp only [periodStep, npHistogram, if_neg hn, Option.bind_eq_bind, Option.some_bind]
  rw [periodStepT]
  simp only [periodScore, trialContents]
  split
  · rfl
  · rfl

theorem periodFold_eq (ts : List ℚ) (nbins : ℕ) (pm : ℚ) (hn : nbins ≠ 0) :
    ∀ (l : List ℤ) (st : SearchState),
      l.foldlM (periodStep ts nbins pm) st = some (l.foldl (periodStepT ts nbins pm) st)
  | [], _ => rfl
  | i :: l, st => by
    rw [List.foldlM_cons, periodStep_eq ts nbins pm hn st i, List.foldl_cons]
    exact periodFold_eq ts nbins pm hn l _

theorem periodStepT_peak (ts : List ℚ) (nbins : ℕ) (pm : ℚ) (st : SearchState) (i : ℤ) :
    (periodStepT ts nbins pm st i).max_peak = max st.max_peak (periodScore ts nbins pm i) := by
  rw [periodStepT]
  split
  · exact (max_eq_left (le_of_lt (by assumption))).symm
  · exact (max_eq_right (not_lt.mp (by assumption))).symm

theorem periodFold_peak (ts : List ℚ) (nbins : ℕ) (pm : ℚ) :
    ∀ (l : List ℤ) (st : SearchState),
      (l.foldl (periodStepT ts nbins pm) st).max_peak
        = l.foldl (fun a i => max a (periodScore ts nbins pm i)) st.max_peak
  | [], _ => rfl
  | i :: l, st => by
    rw [List.foldl_cons, List.foldl_cons, periodFold_peak ts nbins pm l _,
      periodStepT_peak]

theorem periodFold_keep (ts : List ℚ) (nbins : ℕ) (pm : ℚ) :
    ∀ (l : List ℤ) (st : SearchState),
      (∀ i ∈ l, periodScore ts nbins pm i < st.max_peak) →
      l.foldl (periodStepT ts nbins pm) st = st
  | [], _, _ => rfl
  | i :: l, st, h => by
    rw [List.foldl_cons, periodStepT, if_pos (h i (List.mem_cons_self i l))]
    exact periodFold_keep ts nbins pm l st (fun j hj => h j (List.mem_cons_of_mem i hj))

theorem periodSearch_eq (ts : List ℚ) (freq : ℚ) (l₁ l₂ : List ℤ) (i : ℤ)
    (hne : ts ≠ [])
    (hsplit : period_step_range = l₁ ++ i :: l₂)
    (hmax : ∀ j ∈ l₁, periodScore ts ts.length (1 / freq) j
      ≤ periodScore ts ts.length (1 / freq) i)
    (hlast : ∀ j ∈ l₂, periodScore ts ts.length (1 / freq) j
      < periodScore ts ts.length (1 / freq) i) :
    periodSearch ts freq = some
      ⟨periodScore ts ts.length (1 / freq) i, some (trialPeriod (1 / freq) i),
       some (trialContents ts ts.length (1 / freq) i),
       some (histEdges ts.length 0 (1 / freq))⟩ := by
  have hn : ts.length ≠ 0 := fun h => hne (List.length_eq_zero.mp h)
  rw [periodSearch, periodFold_eq ts ts.length (1 / freq) hn, hsplit, List.foldl_append,
    List.foldl_cons]
  have hpeak : (l₁.foldl (periodStepT ts ts.length (1 / freq)) ⟨0, none, none, none⟩).max_peak
      ≤ periodScore ts ts.length (1 / freq) i := by
    rw [periodFold_peak]
    exact foldl_max_le _ _ l₁ 0 (Nat.zero_le _) hmax
  rw [periodStepT, if_neg (not_lt.mpr hpeak)]
  rw [periodFold_keep ts ts.length (1 / freq) l₂ _ (fun j hj => hlast j hj)]

/-! ## The phase loop: same bridging and running-best characterization -/

theorem phaseStep_eq (ts : List ℚ) (nbins : ℕ) (bp : ℚ) (hn : nbins ≠ 0)
    (st : PhaseState) (ph : ℚ) :
    phaseStep ts nbins bp st ph = some (phaseStepT ts nbins bp st ph) := by
  simp only [phaseStep, npHistogram, if_neg hn, Option.bind_eq_bind, Option.some_bind]
  rw [phaseStepT]
  simp only [phaseScore, phaseContents]
  split
  · rfl
  · rfl

theorem phaseFold_eq (ts : List ℚ) (nbins : ℕ) (bp : ℚ) (hn : nbins ≠ 0) :
    ∀ (l : List ℚ) (st : PhaseState),
      l.foldlM (phaseStep ts nbins bp) st = some (l.foldl (phaseStepT ts nbins bp) st)
  | [], _ => rfl
  | ph :: l, st => by
    rw [List.foldlM_cons, phaseStep_eq ts nbins bp hn st ph, List.foldl_cons]
    exact phaseFold_eq ts nbins bp hn l _

theorem phaseStepT_peak (ts : List ℚ) (nbins : ℕ) (bp : ℚ) (st : PhaseState) (ph : ℚ) :
    (phaseStepT ts nbins bp st ph).max_peak = max st.max_peak (phaseScore ts nbins bp ph) := by
  rw [phaseStepT]
  split
  · exact (max_eq_left (le_of_lt (by assumption))).symm
  · exact (max_eq_right (not_lt.mp (by assumption))).symm

theorem phaseFold_peak (ts : List ℚ) (nbins : ℕ) (bp : ℚ) :
    ∀ (l : List ℚ) (st : PhaseState),
      (l.foldl (phaseStepT ts nbins bp) st).max_peak
        = l.foldl (fun a ph => max a (phaseScore ts nbins bp ph)) st.max_peak
  | [], _ => rfl
  | ph :: l, st => by
    rw [List.foldl_cons, List.foldl_cons, phaseFold_peak ts nbins bp l _, phaseStepT_peak]

theorem phaseFold_keep (ts : List ℚ) (nbins : ℕ) (bp : ℚ) :
    ∀ (l : List ℚ) (st : PhaseState),
      (∀ ph ∈ l, phaseScore ts nbins bp ph < st.max_peak) →
      l.foldl (phaseStepT ts nbins bp) st = st
  | [], _, _ => rfl
  | ph :: l, st, h => by
    rw [List.foldl_cons, phaseStepT, if_pos (h ph (List.mem_cons_self ph l))]
    exact phaseFold_keep ts nbins bp l st (fun q hq => h q (List.mem_cons_of_mem ph hq))

theorem phaseSearch_eq (ts : List ℚ) (nbins : ℕ) (bp : ℚ) (c0 : List ℕ) (b0 : List ℚ)
    (l₁ l₂ : List ℚ) (ph : ℚ) (hn : nbins ≠ 0)
    (hsplit : phaseGrid bp = l₁ ++ ph :: l₂)
    (hmax : ∀ q ∈ l₁, phaseScore ts nbins bp q ≤ phaseScore ts nbins bp ph)
    (hlast : ∀ q ∈ l₂, phaseScore ts nbins bp q < phaseScore ts nbins bp ph) :
    phaseSearch ts nbins bp c0 b0 = some
      ⟨phaseScore ts nbins bp ph, ph, phaseContents ts nbins bp ph, histEdges nbins 0 bp⟩ := by
  rw [phaseSearch, phaseFold_eq ts nbins bp hn, hsplit, List.foldl_append, List.foldl_cons]
  have hpeak : (l₁.foldl (phaseStepT ts nbins bp) ⟨0, 0, c0, b0⟩).max_peak
      ≤ phaseScore ts nbins bp ph := by
    rw [phaseFold_peak]
    exact foldl_max_le _ _ l₁ 0 (Nat.zero_le _) hmax
  rw [phaseStepT, if_neg (not_lt.mpr hpeak)]
  rw [phaseFold_keep ts nbins bp l₂ _ (fun q hq => hlast q hq)]

/-! ## The phase grid -/

theorem phaseGrid_split (P : ℚ) :
    phaseGrid P
      = (List.range 999).map (fun k : ℕ => (k : ℚ) * (P / 999)) ++ [((999 : ℕ) : ℚ) * (P / 999)] := by
  have h : (1000 : ℕ) = 999 + 1 := rfl
  rw [phaseGrid, h, List.range_succ, List.map_append]
  rfl

theorem phaseGrid_endpoint (P : ℚ) : ((999 : ℕ) : ℚ) * (P / 999) = P := by
  push_cast
  rw [mul_comm, div_mul_cancel₀ P (by norm_num : (999 : ℚ) ≠ 0)]

theorem mem_phaseGrid_last (P : ℚ) : P ∈ phaseGrid P := by
  rw [phaseGrid_split]
  exact List.mem_append_right _ (by rw [phaseGrid_endpoint]; exact List.mem_singleton.mpr rfl)

/-! ## Evaluating phase scores symbolically (the 1000-step phase grid is
too long to evaluate bin by bin inside a proof, so witnesses go through
these lemmas) -/

theorem inBin_single (P x : ℚ) (h0 : 0 ≤ x) (h1 : x ≤ P) : inBin 1 0 0 P x = true := by
  rw [inBin, if_pos rfl, decide_eq_true_eq]
  refine ⟨by simpa using h0, h1⟩

theorem phaseScore_single (t ph P : ℚ) (hP : 0 < P) : phaseScore [t] 1 P ph = 1 := by
  rw [phaseScore, phaseContents]
  simp only [List.map_cons, List.map_nil]
  rw [histogram]
  rw [show List.range 1 = [0] from rfl]
  simp only [List.map_cons, List.map_nil]
  rw [List.filter_cons_of_pos
    (by exact inBin_single P _ (pymod_nonneg _ _ hP) (pymod_lt _ _ hP).le)]
  rfl

theorem inBin_two_zero (P x : ℚ) : inBin 2 0 0 P x = decide (0 ≤ x ∧ x < P / 2) := by
  rw [inBin, if_neg (by norm_num)]
  rw [decide_eq_decide]
  constructor
  · rintro ⟨h1, h2⟩
    refine ⟨by simpa using h1, ?_⟩
    calc x < 0 + (((0 : ℕ) : ℚ) + 1) * ((P - 0) / ((2 : ℕ) : ℚ)) := h2
      _ = P / 2 := by push_cast; ring
  · rintro ⟨h1, h2⟩
    constructor
    · simpa using h1
    · calc x < P / 2 := h2
        _ = 0 + (((0 : ℕ) : ℚ) + 1) * ((P - 0) / ((2 : ℕ) : ℚ)) := by push_cast; ring

theorem inBin_two_one (P x : ℚ) : inBin 2 1 0 P x = decide (P / 2 ≤ x ∧ x ≤ P) := by
  rw [inBin, if_pos rfl]
  rw [decide_eq_decide]
  constructor
  · rintro ⟨h1, h2⟩
    refine ⟨?_, h2⟩
    calc P / 2 = 0 + ((1 : ℕ) : ℚ) * ((P - 0) / ((2 : ℕ) : ℚ)) := by push_cast; ring
      _ ≤ x := h1
  · rintro ⟨h1, h2⟩
    refine ⟨?_, h2⟩
    calc 0 + ((1 : ℕ) : ℚ) * ((P - 0) / ((2 : ℕ) : ℚ)) = P / 2 := by push_cast; ring
      _ ≤ x := h1

theorem phaseScore_pair (t ph P : ℚ) (hP : 0 < P) : phaseScore [t, t] 2 P ph = 2 := by
  rw [phaseScore, phaseContents]
  simp only [List.map_cons, List.map_nil]
  rw [histogram]
  have hr : List.range 2 = [0, 1] := rfl
  rw [hr]
  simp only [List.map_cons, List.map_nil]
  set x := pymod (t + ph) P with hx
  have h0 : 0 ≤ x := pymod_nonneg _ _ hP
  have h1 : x < P := pymod_lt _ _ hP
  rcases lt_or_le x (P / 2) with hc | hc
  · rw [show List.filter (inBin 2 0 0 P) [x, x] = [x, x] by
      simp [List.filter, inBin_two_zero, h0, hc]]
    rw [show List.filter (inBin 2 1 0 P) [x, x] = [] by
      simp [List.filter, inBin_two_one, not_le.mpr hc]]
    rfl
  · rw [show List.filter (inBin 2 0 0 P) [x, x] = [] by
      simp [List.filter, inBin_two_zero, not_lt.mpr hc]]
    rw [show List.filter (inBin 2 1 0 P) [x, x] = [x, x] by
      simp [List.filter, inBin_two_one, hc, h1.le]]
    rfl

/-! ## Composing the stages symbolically -/

theorem find_pedestals_eval (ts : List ℚ) (freq : ℚ) (st : SearchState) (bp : ℚ)
    (c0 : List ℕ) (b0 : List ℚ) (ps : PhaseState)
    (hper : periodSearch ts freq = some st)
    (hbp : st.best_period = some bp) (hc0 : st.best_contents = some c0)
    (hb0 : st.best_bins = some b0)
    (hph : phaseSearch ts ts.length bp c0 b0 = some ps) :
    find_pedestals ts freq
      = windowSelect ps.best_contents ps.best_bins
          (ts.map (fun t => pymod (t + ps.best_phase) bp)) := by
  rw [find_pedestals, hper]
  simp only [Option.bind_eq_bind, Option.some_bind, hbp, hc0, hb0, hph]

theorem find_pedestals_constphase (ts : List ℚ) (freq bp : ℚ) (c : ℕ) (st : SearchState)
    (c0 : List ℕ) (b0 : List ℚ)
    (hper : periodSearch ts freq = some st)
    (hbp : st.best_period = some bp) (hc0 : st.best_contents = some c0)
    (hb0 : st.best_bins = some b0)
    (hlen : ts.length ≠ 0)
    (hconst : ∀ ph, phaseScore ts ts.length bp ph = c) :
    find_pedestals ts freq
      = windowSelect (phaseContents ts ts.length bp bp) (histEdges ts.length 0 bp)
          (ts.map (fun t => pymod (t + bp) bp)) := by
  have hph : phaseSearch ts ts.length bp c0 b0 = some
      ⟨phaseScore ts ts.length bp (((999 : ℕ) : ℚ) * (bp / 999)),
       ((999 : ℕ) : ℚ) * (bp / 999),
       phaseContents ts ts.length bp (((999 : ℕ) : ℚ) * (bp / 999)),
       histEdges ts.length 0 bp⟩ :=
    phaseSearch_eq ts ts.length bp c0 b0 _ [] _ hlen (phaseGrid_split bp)
      (fun q _ => by rw [hconst q, hconst _])
      (fun q hq => absurd hq (List.not_mem_nil q))
  rw [find_pedestals_eval ts freq st bp c0 b0 _ hper hbp hc0 hb0 hph]
  rw [show (⟨phaseScore ts ts.length bp (((999 : ℕ) : ℚ) * (bp / 999)),
       ((999 : ℕ) : ℚ) * (bp / 999),
       phaseContents ts ts.length bp (((999 : ℕ) : ℚ) * (bp / 999)),
       histEdges ts.length 0 bp⟩ : PhaseState).best_phase = ((999 : ℕ) : ℚ) * (bp / 999) from rfl]
  rw [phaseGrid_endpoint bp]

theorem period_step_range_split :
    period_step_range = (List.range 100).map (fun k : ℕ => (k : ℤ) - 50) ++ 50 :: [] := by
  decide

theorem periodSearch_last (ts : List ℚ) (freq : ℚ) (hne : ts ≠ [])
    (hmax : ∀ j ∈ (List.range 100).map (fun k : ℕ => (k : ℤ) - 50),
      periodScore ts ts.length (1 / freq) j ≤ periodScore ts ts.length (1 / freq) 50) :
    periodSearch ts freq = some ⟨periodScore ts ts.length (1 / freq) 50,
      some (trialPeriod (1 / freq) 50), some (trialContents ts ts.length (1 / freq) 50),
      some (histEdges ts.length 0 (1 / freq))⟩ :=
  periodSearch_eq ts freq _ [] 50 hne period_step_range_split hmax
    (fun j hj => absurd hj (List.not_mem_nil j))

theorem pymod_zero (P : ℚ) : pymod 0 P = 0 := by
  simp [pymod]

theorem periodScore_zero_single (j : ℤ) : periodScore [0] 1 (1 / 50) j = 1 := by
  rw [periodScore, trialContents]
  simp only [List.map_cons, List.map_nil, pymod_zero]
  decide

theorem periodScore_zero_pair (j : ℤ) : periodScore [0, 0] 2 (1 / 50) j = 2 := by
  rw [periodScore, trialContents]
  simp only [List.map_cons, List.map_nil, pymod_zero]
  decide

theorem periodSearch_single :
    periodSearch [0] 50 = some ⟨1, some (4001 / 200000), some [1], some [0, 1 / 50]⟩ := by
  rw [periodSearch_last [0] 50 (by decide)
    (fun j _ => by
      show periodScore [0] 1 (1 / 50) j ≤ periodScore [0] 1 (1 / 50) 50
      rw [periodScore_zero_single j, periodScore_zero_single 50])]
  decide

theorem periodSearch_pair :
    periodSearch [0, 0] 50
      = some ⟨2, some (4001 / 200000), some [2, 0], some [0, 1 / 100, 1 / 50]⟩ := by
  rw [periodSearch_last [0, 0] 50 (by decide)
    (fun j _ => by
      show periodScore [0, 0] 2 (1 / 50) j ≤ periodScore [0, 0] 2 (1 / 50) 50
      rw [periodScore_zero_pair j, periodScore_zero_pair 50])]
  decide

theorem periodFold_allSome (ts : List ℚ) (nbins : ℕ) (pm : ℚ) :
    ∀ (l : List ℤ) (st : SearchState),
      st.best_period.isSome = true → st.best_contents.isSome = true →
      st.best_bins.isSome = true →
      ((l.foldl (periodStepT ts nbins pm) st).best_period.isSome = true
        ∧ (l.foldl (periodStepT ts nbins pm) st).best_contents.isSome = true
        ∧ (l.foldl (periodStepT ts nbins pm) st).best_bins.isSome = true)
  | [], _, h1, h2, h3 => ⟨h1, h2, h3⟩
  | i :: l, st, h1, h2, h3 => by
    rw [List.foldl_cons, periodStepT]
    split
    · exact periodFold_allSome ts nbins pm l st h1 h2 h3
    · exact periodFold_allSome ts nbins pm l _ rfl rfl rfl

/-! ## Indexing facts for the mask pipeline -/

theorem getElem?_zipWith' {α β γ : Type} (f : α → β → γ) :
    ∀ (as : List α) (bs : List β) (k : ℕ) (a : α) (b : β),
      as[k]? = some a → bs[k]? = some b → (List.zipWith f as bs)[k]? = some (f a b)
  | [], _, _, _, _, h, _ => by simp at h
  | _ :: _, [], _, _, _, _, h => by simp at h
  | a' :: as, b' :: bs, 0, a, b, ha, hb => by
    simp only [List.getElem?_cons_zero, Option.some.injEq] at ha hb
    subst ha; subst hb
    simp [List.zipWith]
  | a' :: as, b' :: bs, k + 1, a, b, ha, hb => by
    simp only [List.getElem?_cons_succ] at ha hb
    simpa [List.zipWith, List.getElem?_cons_succ]
      using getElem?_zipWith' f as bs k a b ha hb

theorem scatter_length : ∀ (ff sub : List Bool), (scatter ff sub).length = ff.length
  | [], _ => rfl
  | true :: fs, sub => congrArg Nat.succ (scatter_length fs sub)
  | false :: fs, [] => congrArg Nat.succ (scatter_length fs [])
  | false :: fs, _ :: sub => congrArg Nat.succ (scatter_length fs sub)

theorem scatter_cons_true (fs sub : List Bool) :
    scatter (true :: fs) sub = false :: scatter fs sub := rfl

theorem scatter_cons_false_nil (fs : List Bool) :
    scatter (false :: fs) [] = false :: scatter fs [] := rfl

theorem scatter_cons_false (fs sub : List Bool) (b : Bool) :
    scatter (false :: fs) (b :: sub) = b :: scatter fs sub := rfl

theorem scatter_excluded : ∀ (ff sub : List Bool) (k : ℕ), ff[k]? = some true →
    (scatter ff sub)[k]? = some false
  | [], _, _, h => by simp at h
  | true :: fs, sub, 0, _ => by
    rw [scatter_cons_true]
    simp
  | true :: fs, sub, k + 1, h => by
    rw [scatter_cons_true, List.getElem?_cons_succ]
    exact scatter_excluded fs sub k (by simpa using h)
  | false :: fs, [], 0, h => by simp at h
  | false :: fs, [], k + 1, h => by
    rw [scatter_cons_false_nil, List.getElem?_cons_succ]
    exact scatter_excluded fs [] k (by simpa using h)
  | false :: fs, b :: sub, 0, h => by simp at h
  | false :: fs, b :: sub, k + 1, h => by
    rw [scatter_cons_false, List.getElem?_cons_succ]
    exact scatter_excluded fs sub k (by simpa using h)

theorem removeBrightest_getElem (pedmask : List Bool) (vals : List ℚ) (k : ℕ)
    (hk : k < pedmask.length) :
    (removeBrightest pedmask vals)[k]?
      = some (if (removeIdxOf pedmask vals).contains k
          then false else (pedmask[k]?).getD false) := by
  rw [removeBrightest]
  simp [List.getElem?_map, List.getElem?_range hk]

theorem removeBrightest_preserves_false (pedmask : List Bool) (vals : List ℚ) (k : ℕ)
    (h : pedmask[k]? = some false) : (removeBrightest pedmask vals)[k]? = some false := by
  have hk : k < pedmask.length := by
    rcases List.getElem?_eq_some.mp h with ⟨hlt, -⟩
    exact hlt
  rw [removeBrightest_getElem pedmask vals k hk, h]
  split
  · rfl
  · rfl

/-! ## Facts about the argsort-based contamination remover -/

theorem argsort_perm (vals : List ℚ) : List.Perm (argsort vals) (List.range vals.length) :=
  List.perm_insertionSort _ _

theorem argsort_sorted (vals : List ℚ) :
    List.Pairwise (fun i j => val0 vals i ≤ val0 vals j) (argsort vals) := by
  haveI h1 : IsTotal ℕ (fun i j => val0 vals i ≤ val0 vals j) := ⟨fun _ _ => le_total _ _⟩
  haveI h2 : IsTrans ℕ (fun i j => val0 vals i ≤ val0 vals j) :=
    ⟨fun _ _ _ hab hbc => le_trans hab hbc⟩
  exact List.sorted_insertionSort _ _

theorem dec_pairwise (vals : List ℚ) :
    List.Pairwise (fun i j => val0 vals j ≤ val0 vals i) (decOrder vals) :=
  List.pairwise_reverse.mpr (argsort_sorted vals)

theorem dec_perm (vals : List ℚ) : List.Perm (decOrder vals) (List.range vals.length) :=
  (List.reverse_perm _).trans (argsort_perm vals)

theorem dec_nodup (vals : List ℚ) : (decOrder vals).Nodup :=
  (dec_perm vals).symm.nodup (List.nodup_range _)

theorem countP_range_getD : ∀ (m : List Bool),
    (List.range m.length).countP (fun j => (m[j]?).getD false) = m.count true
  | [] => rfl
  | x :: xs => by
    rw [List.length_cons, List.range_succ_eq_map, List.countP_cons, List.countP_map]
    have h : ((fun j => ((x :: xs)[j]?).getD false) ∘ Nat.succ)
        = (fun j => (xs[j]?).getD false) := by
      funext j
      simp
    rw [h, countP_range_getD xs, List.count_cons]
    cases x <;> simp

theorem countP_split {α : Type} (p q : α → Bool) : ∀ (l : List α),
    l.countP p = l.countP (fun a => p a && q a) + l.countP (fun a => p a && !q a)
  | [] => rfl
  | x :: l => by
    rw [List.countP_cons, List.countP_cons, List.countP_cons, countP_split p q l]
    cases hp : p x <;> cases hq : q x <;> simp [hp, hq] <;> omega

theorem contains_iff_mem (l : List ℕ) (a : ℕ) : l.contains a = true ↔ a ∈ l := by
  simp [List.contains, List.elem_iff]

theorem removeIdx_sublist (pedmask : List Bool) (vals : List ℚ) :
    List.Sublist (removeIdxOf pedmask vals) (decOrder vals) :=
  (List.take_sublist _ _).trans (List.filter_sublist _)

theorem removeIdx_nodup (pedmask : List Bool) (vals : List ℚ) :
    (removeIdxOf pedmask vals).Nodup :=
  (dec_nodup vals).sublist (removeIdx_sublist pedmask vals)

theorem removeIdx_mem (pedmask : List Bool) (vals : List ℚ) (i : ℕ)
    (h : i ∈ removeIdxOf pedmask vals) :
    (pedmask[i]?).getD false = true ∧ i < vals.length := by
  have hfilt : i ∈ (decOrder vals).filter (fun j => (pedmask[j]?).getD false) :=
    (List.take_sublist _ _).subset h
  refine ⟨(List.mem_filter.mp hfilt).2, ?_⟩
  have hdec : i ∈ decOrder vals := (List.filter_sublist _).subset hfilt
  exact List.mem_range.mp ((dec_perm vals).mem_iff.mp hdec)

theorem filt_length (pedmask : List Bool) (vals : List ℚ)
    (hlen : vals.length = pedmask.length) :
    ((decOrder vals).filter (fun j => (pedmask[j]?).getD false)).length
      = pedmask.count true := by
  rw [← List.countP_eq_length_filter]
  rw [List.Perm.countP_eq _ (dec_perm vals), hlen]
  exact countP_range_getD pedmask

theorem removeIdx_length (pedmask : List Bool) (vals : List ℚ)
    (hlen : vals.length = pedmask.length) :
    (removeIdxOf pedmask vals).length = min 10 (pedmask.count true) := by
  rw [removeIdxOf, List.length_take, filt_length pedmask vals hlen]

theorem countP_mem_removeIdx (pedmask : List Bool) (vals : List ℚ)
    (hlen : vals.length = pedmask.length) :
    (List.range pedmask.length).countP
        (fun i => (pedmask[i]?).getD false && (removeIdxOf pedmask vals).contains i)
      = (removeIdxOf pedmask vals).length := by
  have hcong : (List.range pedmask.length).countP
      (fun i => (pedmask[i]?).getD false && (removeIdxOf pedmask vals).contains i)
      = (List.range pedmask.length).countP
        (fun i => (removeIdxOf pedmask vals).contains i) := by
    apply List.countP_congr
    intro i _
    cases hc : (removeIdxOf pedmask vals).contains i with
    | true =>
      have hmem := (contains_iff_mem _ _).mp hc
      simp [(removeIdx_mem pedmask vals i hmem).1]
    | false => simp
  rw [hcong, List.countP_eq_length_filter]
  have hperm : List.Perm
      ((List.range pedmask.length).filter
        (fun i => (removeIdxOf pedmask vals).contains i))
      (removeIdxOf pedmask vals) := by
    rw [List.perm_ext_iff_of_nodup
      ((List.nodup_range _).filter _) (removeIdx_nodup pedmask vals)]
    intro a
    rw [List.mem_filter]
    constructor
    · rintro ⟨-, hc⟩
      exact (contains_iff_mem _ _).mp hc
    · intro ha
      refine ⟨List.mem_range.mpr ?_, (contains_iff_mem _ _).mpr ha⟩
      rw [← hlen]
      exact (removeIdx_mem pedmask vals a ha).2
  exact hperm.length_eq

theorem removeBrightest_count_and_order (pedmask : List Bool) (vals : List ℚ)
    (hlen : vals.length = pedmask.length) :
    (removeBrightest pedmask vals).length = pedmask.length
  ∧ (removeBrightest pedmask vals).count true
      = pedmask.count true - min 10 (pedmask.count true)
  ∧ (∀ k : ℕ, (removeBrightest pedmask vals)[k]? = some true → pedmask[k]? = some true)
  ∧ ∀ i j : ℕ, pedmask[i]? = some true → (removeBrightest pedmask vals)[i]? = some false →
      (removeBrightest pedmask vals)[j]? = some true → val0 vals j ≤ val0 vals i := by
  have hlength : (removeBrightest pedmask vals).length = pedmask.length := by
    rw [removeBrightest, List.length_map, List.length_range]
  refine ⟨hlength, ?_, ?_, ?_⟩
  · rw [removeBrightest, List.count, List.countP_map]
    have hcong : (List.range pedmask.length).countP
        ((fun b => b == true) ∘ (fun i => if (removeIdxOf pedmask vals).contains i then false
          else (pedmask[i]?).getD false))
        = (List.range pedmask.length).countP
          (fun i => (pedmask[i]?).getD false && !((removeIdxOf pedmask vals).contains i)) := by
      apply List.countP_congr
      intro i _
      simp only [Function.comp]
      cases hc : (removeIdxOf pedmask vals).contains i <;>
        cases hpk : (pedmask[i]?).getD false <;> decide
    rw [hcong]
    have hsplit := countP_split (fun i => (pedmask[i]?).getD false)
      (fun i => (removeIdxOf pedmask vals).contains i) (List.range pedmask.length)
    rw [countP_range_getD pedmask, countP_mem_removeIdx pedmask vals hlen,
      removeIdx_length pedmask vals hlen] at hsplit
    have hcount : pedmask.count true = List.countP (fun x => x == true) pedmask := rfl
    omega
  · intro k hk
    have hklt : k < pedmask.length := by
      rcases List.getElem?_eq_some.mp hk with ⟨hlt, -⟩
      rw [hlength] at hlt
      exact hlt
    rw [removeBrightest_getElem pedmask vals k hklt] at hk
    have heq := Option.some.inj hk
    cases hc : (removeIdxOf pedmask vals).contains k with
    | true => rw [if_pos hc] at heq; exact absurd heq (by simp)
    | false =>
      rw [if_neg (by rw [hc]; exact Bool.false_ne_true)] at heq
      cases hpk : pedmask[k]? with
      | none => rw [hpk] at heq; simp at heq
      | some b =>
        rw [hpk] at heq
        simp only [Option.getD_some] at heq
        rw [heq]
  · intro i j hi hif hjt
    have hilt : i < pedmask.length := by
      rcases List.getElem?_eq_some.mp hif with ⟨hlt, -⟩
      rw [hlength] at hlt; exact hlt
    have hjlt : j < pedmask.length := by
      rcases List.getElem?_eq_some.mp hjt with ⟨hlt, -⟩
      rw [hlength] at hlt; exact hlt
    rw [removeBrightest_getElem pedmask vals i hilt] at hif
    rw [removeBrightest_getElem pedmask vals j hjlt] at hjt
    have heqi := Option.some.inj hif
    have heqj := Option.some.inj hjt
    have hpi : (pedmask[i]?).getD false = true := by rw [hi]; rfl
    have hci : (removeIdxOf pedmask vals).contains i = true := by
      by_contra hc
      rw [if_neg hc, hpi] at heqi
      exact absurd heqi (by simp)
    have hcj : (removeIdxOf pedmask vals).contains j = false := by
      cases hc : (removeIdxOf pedmask vals).contains j with
      | true => rw [if_pos hc] at heqj; exact absurd heqj (by simp)
      | false => rfl
    have hpj : (pedmask[j]?).getD false = true := by
      rw [if_neg (by rw [hcj]; exact Bool.false_ne_true)] at heqj
      exact heqj
    have hiMem : i ∈ removeIdxOf pedmask vals := (contains_iff_mem _ _).mp hci
    have hjFilt : j ∈ (decOrder vals).filter (fun q => (pedmask[q]?).getD false) := by
      rw [List.mem_filter]
      refine ⟨?_, hpj⟩
      exact (dec_perm vals).mem_iff.mpr (List.mem_range.mpr (by rw [hlen]; exact hjlt))
    have hjDrop : j ∈ ((decOrder vals).filter
        (fun q => (pedmask[q]?).getD false)).drop 10 := by
      have hsplit2 : j ∈ ((decOrder vals).filter (fun q => (pedmask[q]?).getD false)).take 10
          ++ ((decOrder vals).filter (fun q => (pedmask[q]?).getD false)).drop 10 := by
        rw [List.take_append_drop]
        exact hjFilt
      rcases List.mem_append.mp hsplit2 with htake | hdrop
      · exact absurd ((contains_iff_mem (removeIdxOf pedmask vals) j).mpr htake)
          (by rw [hcj]; exact Bool.false_ne_true)
      · exact hdrop
    have hpw : List.Pairwise (fun a b => val0 vals b ≤ val0 vals a)
        ((decOrder vals).filter (fun q => (pedmask[q]?).getD false)) :=
      List.Pairwise.sublist (List.filter_sublist _) (dec_pairwise vals)
    rw [← List.take_append_drop 10
      ((decOrder vals).filter (fun q => (pedmask[q]?).getD false))] at hpw
    rcases List.pairwise_append.mp hpw with ⟨-, -, hcross⟩
    exact hcross i hiMem j hjDrop

/-! ## The window selector on a peak at bin 0 with the wraparound read -/

theorem npGet_zero_cons {α : Type} (x : α) (l : List α) : npGet (x :: l) 0 = some x := by
  rw [npGet, if_pos le_rfl]
  simp

theorem npGet_neg_one (l : List ℕ) (h : l ≠ []) : npGet l (-1) = some (l.getLastD 0) := by
  have hlen : 0 < l.length := List.length_pos.mpr h
  rw [npGet, if_neg (by norm_num)]
  rw [if_pos (by omega : (0 : ℤ) ≤ -1 + (l.length : ℤ))]
  have ht : ((-1 : ℤ) + (l.length : ℤ)).toNat = l.length - 1 := by omega
  rw [ht, ← List.getLast?_eq_getElem?]
  cases hq : l.getLast? with
  | none => exact absurd (List.getLast?_isSome.mpr h) (by rw [hq]; simp)
  | some a => rw [List.getLastD_eq_getLast?, hq]; rfl

theorem npGet_histEdges_last (n : ℕ) (hi : ℚ) (hn : n ≠ 0) :
    npGet (histEdges n 0 hi) (-1) = some hi := by
  have hlen : (histEdges n 0 hi).length = n + 1 := by
    rw [histEdges, List.length_map, List.length_range]
  rw [npGet, if_neg (by norm_num)]
  rw [if_pos (by rw [hlen]; omega : (0 : ℤ) ≤ -1 + ((histEdges n 0 hi).length : ℤ))]
  have ht : ((-1 : ℤ) + ((histEdges n 0 hi).length : ℤ)).toNat = n := by
    rw [hlen]; omega
  rw [ht, histEdges]
  rw [List.getElem?_map, List.getElem?_range (by omega : n < n + 1)]
  have hval : 0 + (n : ℚ) * ((hi - 0) / (n : ℚ)) = hi := by
    rw [zero_add, sub_zero, mul_comm, div_mul_cancel₀ hi
      (by exact_mod_cast hn : ((n : ℕ) : ℚ) ≠ 0)]
  rw [Option.map_some']
  rw [hval]

theorem window_wraparound_all_false (ts : List ℚ) (phase P : ℚ) (contents : List ℕ)
    (n : ℕ) (mask : List Bool) (hP : 0 < P) (hn : n ≠ 0)
    (hpeak : argmax contents = 0)
    (hwrap : (1 / 10 : ℚ) * ((contents.headD 0 : ℕ) : ℚ) < ((contents.getLastD 0 : ℕ) : ℚ))
    (hres : windowSelect contents (histEdges n 0 P)
        (ts.map (fun t => pymod (t + phase) P)) = some mask) :
    npGet (histEdges n 0 P) (-1) = some P ∧ mask = List.replicate ts.length false := by
  refine ⟨npGet_histEdges_last n P hn, ?_⟩
  cases contents with
  | nil =>
    rw [windowSelect] at hres
    simp [argmax, npGet] at hres
  | cons c cs =>
    rw [windowSelect, hpeak] at hres
    simp only [Nat.cast_zero, zero_sub, zero_add] at hres
    rw [npGet_zero_cons, npGet_neg_one (c :: cs) (by simp)] at hres
    simp only [Option.bind_eq_bind, Option.some_bind] at hres
    rw [List.headD_cons] at hwrap
    rw [if_pos hwrap] at hres
    cases hr : npGet (c :: cs) 1 with
    | none => rw [hr] at hres; simp at hres
    | some r =>
      rw [hr] at hres
      simp only [Option.some_bind] at hres
      rw [npGet_histEdges_last n P hn] at hres
      split at hres
      · cases hmv : npGet (histEdges n 0 P) (1 + 1) with
        | none => rw [hmv] at hres; simp at hres
        | some mv =>
          rw [hmv] at hres
          simp only [Option.some_bind, Option.pure_def, Option.some.injEq] at hres
          rw [← hres]
          rw [List.eq_replicate_iff]
          refine ⟨by rw [List.length_map, List.length_map], ?_⟩
          intro b hb
          rcases List.mem_map.mp hb with ⟨t, ht, hbt⟩
          rcases List.mem_map.mp ht with ⟨x, -, hx⟩
          rw [← hbt]
          rw [decide_eq_false_iff_not]
          rintro ⟨h1, -⟩
          rw [← hx] at h1
          exact absurd (lt_trans (pymod_lt (x + phase) P hP) h1) (lt_irrefl _)
      · cases hmv : npGet (histEdges n 0 P) (0 + 1) with
        | none => rw [hmv] at hres; simp at hres
        | some mv =>
          rw [hmv] at hres
          simp only [Option.some_bind, Option.pure_def, Option.some.injEq] at hres
          rw [← hres]
          rw [List.eq_replicate_iff]
          refine ⟨by rw [List.length_map, List.length_map], ?_⟩
          intro b hb
          rcases List.mem_map.mp hb with ⟨t, ht, hbt⟩
          rcases List.mem_map.mp ht with ⟨x, -, hx⟩
          rw [← hbt]
          rw [decide_eq_false_iff_not]
          rintro ⟨h1, -⟩
          rw [← hx] at h1
          exact absurd (lt_trans (pymod_lt (x + phase) P hP) h1) (lt_irrefl _)

/-! ## The trial histogram range is the nominal period, for every grid index -/

theorem inBin_false_of_gt (n j : ℕ) (hi v : ℚ) (hpos : 0 < hi) (hj : j < n) (hv : hi < v) :
    inBin n j 0 hi v = false := by
  have hn : 0 < n := lt_of_le_of_lt (Nat.zero_le j) hj
  rw [inBin]
  split
  · rw [decide_eq_false_iff_not]
    rintro ⟨-, h2⟩
    exact absurd (lt_of_lt_of_le hv h2) (lt_irrefl _)
  · rw [decide_eq_false_iff_not]
    rintro ⟨-, h2⟩
    have hle : ((j : ℚ) + 1) * ((hi - 0) / (n : ℚ)) ≤ hi := by
      rw [sub_zero]
      have h1 : ((j : ℚ) + 1) ≤ (n : ℚ) := by
        exact_mod_cast Nat.succ_le_of_lt hj
      have h2' : (0 : ℚ) ≤ hi / (n : ℚ) :=
        le_of_lt (div_pos hpos (by exact_mod_cast hn))
      calc ((j : ℚ) + 1) * (hi / (n : ℚ)) ≤ (n : ℚ) * (hi / (n : ℚ)) :=
            mul_le_mul_of_nonneg_right h1 h2'
        _ = hi := by
            rw [mul_comm, div_mul_cancel₀ hi
              (by exact_mod_cast hn.ne' : ((n : ℕ) : ℚ) ≠ 0)]
    have : v < hi := lt_of_lt_of_le (by simpa using h2) hle
    exact absurd (lt_trans hv this) (lt_irrefl _)

theorem periodStep_range_fixed (ts : List ℚ) (nbins : ℕ) (pm : ℚ) (st st' : SearchState)
    (i : ℤ) (hstep : periodStep ts nbins pm st i = some st') :
    (st'.best_bins = st.best_bins ∨ st'.best_bins = some (histEdges nbins 0 pm))
    ∧ (st'.best_contents = st.best_contents
        ∨ st'.best_contents = some (trialContents ts nbins pm i)) := by
  have hn : nbins ≠ 0 := by
    intro h
    rw [h] at hstep
    simp [periodStep, npHistogram] at hstep
  rw [periodStep_eq ts nbins pm hn st i] at hstep
  have hst' := Option.some.inj hstep
  rw [periodStepT] at hst'
  split at hst'
  · rw [← hst']
    exact ⟨Or.inl rfl, Or.inl rfl⟩
  · rw [← hst']
    exact ⟨Or.inr rfl, Or.inr rfl⟩

/-! ## The period loop always records a best on its first iteration -/

theorem periodSearch_isSome (ts : List ℚ) (freq : ℚ) (hne : ts ≠ []) :
    ∃ st, periodSearch ts freq = some st
      ∧ st.best_period.isSome = true ∧ st.best_contents.isSome = true
      ∧ st.best_bins.isSome = true := by
  have hn : ts.length ≠ 0 := fun h => hne (List.length_eq_zero.mp h)
  rw [periodSearch, periodFold_eq ts ts.length (1 / freq) hn]
  obtain ⟨x, rest, hx⟩ :=
    List.exists_cons_of_ne_nil (by decide : period_step_range ≠ [])
  rw [hx, List.foldl_cons]
  refine ⟨_, rfl, ?_⟩
  have hfirst : periodStepT ts ts.length (1 / freq) ⟨0, none, none, none⟩ x
      = ⟨periodScore ts ts.length (1 / freq) x, some (trialPeriod (1 / freq) x),
         some (trialContents ts ts.length (1 / freq) x),
         some (histEdges ts.length 0 (1 / freq))⟩ := by
    rw [periodStepT, if_neg (Nat.not_lt_zero _)]
  rw [hfirst]
  exact periodFold_allSome ts ts.length (1 / freq) rest
    ⟨periodScore ts ts.length (1 / freq) x, some (trialPeriod (1 / freq) x),
     some (trialContents ts ts.length (1 / freq) x),
     some (histEdges ts.length 0 (1 / freq))⟩ rfl rfl rfl

/-! ## Excluded events stay excluded through the whole pipeline -/

theorem pipeline_excluded_false (tbl : EventTable) (rn k : ℕ) (v c : ℚ)
    (pm m : List Bool)
    (hpm : pedmaskOf tbl rn = some pm)
    (hm : pipeline tbl rn = some m)
    (hv : tbl.intensity[k]? = some (some v)) (hv30 : (30000 : ℚ) < v)
    (hc : tbl.concentration_pixel[k]? = some (some c)) (hc5 : c < 1 / 200) :
    pm[k]? = some false ∧ m[k]? = some false := by
  have hff : (ffmaskOf tbl)[k]? = some true := by
    rw [ffmaskOf, getElem?_zipWith' isExcluded _ _ k _ _ hv hc]
    have hc5' : c < (200 : ℚ)⁻¹ := by rw [← one_div]; exact hc5
    simp [isExcluded, hv30, hc5']
  have hpm2 : ∃ sub, find_pedestals (candTimes tbl) (nominalFrequency rn) = some sub
      ∧ pm = scatter (ffmaskOf tbl) sub := by
    rw [pedmaskOf] at hpm
    cases hfp : find_pedestals (candTimes tbl) (nominalFrequency rn) with
    | none => rw [hfp] at hpm; simp at hpm
    | some sub =>
      rw [hfp] at hpm
      simp only [Option.bind_eq_bind, Option.some_bind, Option.pure_def,
        Option.some.injEq] at hpm
      exact ⟨sub, rfl, hpm.symm⟩
  obtain ⟨sub, -, hpmeq⟩ := hpm2
  have h1 : pm[k]? = some false := by
    rw [hpmeq]
    exact scatter_excluded (ffmaskOf tbl) sub k hff
  refine ⟨h1, ?_⟩
  have hm2 : m = removeBrightest pm (nanToZero tbl.intensity) := by
    rw [pipeline, hpm] at hm
    simp only [Option.map_some', Option.some.injEq] at hm
    exact hm.symm
  rw [hm2]
  exact removeBrightest_preserves_false pm _ k h1

/-! ## Claim theorems -/

/-- Claim C1 (corrected). In both grid-search loops the running best is
replaced whenever the new peak is greater than **or equal to** the current
best (`if np.max(contents) < max_peak: continue`), so among equal peaks the
later-seen hypothesis wins: the final best hypothesis is the **last** grid
point whose score attains the running maximum. The first conjunct states
this for the period loop, the second for the phase loop. -/
theorem C1_best_is_last_argmax :
    (∀ (ts : List ℚ) (freq : ℚ) (l₁ l₂ : List ℤ) (i : ℤ), ts ≠ [] →
      period_step_range = l₁ ++ i :: l₂ →
      (∀ j ∈ l₁, periodScore ts ts.length (1 / freq) j
        ≤ periodScore ts ts.length (1 / freq) i) →
      (∀ j ∈ l₂, periodScore ts ts.length (1 / freq) j
        < periodScore ts ts.length (1 / freq) i) →
      ∃ st, periodSearch ts freq = some st
        ∧ st.best_period = some (trialPeriod (1 / freq) i)
        ∧ st.max_peak = periodScore ts ts.length (1 / freq) i)
  ∧ (∀ (ts : List ℚ) (nbins : ℕ) (bp : ℚ) (c0 : List ℕ) (b0 : List ℚ)
      (l₁ l₂ : List ℚ) (ph : ℚ), nbins ≠ 0 →
      phaseGrid bp = l₁ ++ ph :: l₂ →
      (∀ q ∈ l₁, phaseScore ts nbins bp q ≤ phaseScore ts nbins bp ph) →
      (∀ q ∈ l₂, phaseScore ts nbins bp q < phaseScore ts nbins bp ph) →
      ∃ ps, phaseSearch ts nbins bp c0 b0 = some ps
        ∧ ps.best_phase = ph
        ∧ ps.max_peak = phaseScore ts nbins bp ph) := by
  constructor
  · intro ts freq l₁ l₂ i hne hsplit hmax hlast
    exact ⟨_, periodSearch_eq ts freq l₁ l₂ i hne hsplit hmax hlast, rfl, rfl⟩
  · intro ts nbins bp c0 b0 l₁ l₂ ph hn hsplit hmax hlast
    exact ⟨_, phaseSearch_eq ts nbins bp c0 b0 l₁ l₂ ph hn hsplit hmax hlast, rfl, rfl⟩

/-- Witness for C1: on the single-timestamp input `[0]` every period grid
index scores 1 and every phase scores 1, and the loops end on the last
grid point in each case. -/
theorem C1_best_is_last_argmax_witness :
    (∃ st, periodSearch [0] 50 = some st
      ∧ st.best_period = some (trialPeriod (1 / 50) 50)
      ∧ st.max_peak = periodScore [0] ([0] : List ℚ).length (1 / 50) 50)
  ∧ (∃ ps, phaseSearch [0] 1 (1 / 50) [1] [0, 1 / 50] = some ps
      ∧ ps.best_phase = ((999 : ℕ) : ℚ) * ((1 / 50) / 999)
      ∧ ps.max_peak = phaseScore [0] 1 (1 / 50) (((999 : ℕ) : ℚ) * ((1 / 50) / 999))) :=
  ⟨C1_best_is_last_argmax.1 [0] 50 ((List.range 100).map (fun k : ℕ => (k : ℤ) - 50)) [] 50
    (by decide) period_step_range_split (by decide) (by simp),
   C1_best_is_last_argmax.2 [0] 1 (1 / 50) [1] [0, 1 / 50]
    ((List.range 999).map (fun k : ℕ => (k : ℚ) * ((1 / 50) / 999))) []
    (((999 : ℕ) : ℚ) * ((1 / 50) / 999))
    (by decide) (phaseGrid_split (1 / 50))
    (fun q _ => by
      rw [phaseScore_single 0 q (1 / 50) (by norm_num),
        phaseScore_single 0 _ (1 / 50) (by norm_num)])
    (by simp)⟩

/-- Counterexample to C1 as stated: on input `[0]` every trial period has
the same peak 1 (shown for the first and last grid indices), yet the
period kept as best is the last trial `trialPeriod (1/50) 50`, not the
earlier-seen `trialPeriod (1/50) (-50)` — an equal peak does replace the
running best. -/
theorem C1_cex_tie_keeps_later :
    periodScore [0] 1 (1 / 50) (-50) = 1
  ∧ periodScore [0] 1 (1 / 50) 50 = 1
  ∧ periodSearch [0] 50
      = some ⟨1, some (trialPeriod (1 / 50) 50), some [1], some [0, 1 / 50]⟩
  ∧ trialPeriod (1 / 50) 50 ≠ trialPeriod (1 / 50) (-50) := by
  refine ⟨by decide, by decide, by decide, by decide⟩

/-- Claim C2 (corrected). For each trial period the histogram range the
period loop passes to `np.histogram` is the fixed `(0, period_mean)`, not
the hypothesis-dependent `[0, P_i)`: whatever the grid index `i`, the bins
and contents a loop step records are those of the nominal range, and any
folded value strictly above the nominal period lands in no bin at all. -/
theorem C2_trial_range_is_nominal (ts : List ℚ) (nbins : ℕ) (pm : ℚ)
    (st st' : SearchState) (i : ℤ) (v : ℚ) (hpm : 0 < pm)
    (hstep : periodStep ts nbins pm st i = some st') (hv : pm < v) :
    (st'.best_bins = st.best_bins ∨ st'.best_bins = some (histEdges nbins 0 pm))
  ∧ (st'.best_contents = st.best_contents
      ∨ st'.best_contents = some (trialContents ts nbins pm i))
  ∧ ∀ j, j < nbins → inBin nbins j 0 pm v = false := by
  obtain ⟨h1, h2⟩ := periodStep_range_fixed ts nbins pm st st' i hstep
  exact ⟨h1, h2, fun j hj => inBin_false_of_gt nbins j pm v hpm hj hv⟩

/-- Witness for C2: a concrete loop step at grid index 50, with the folded
value 1/25 above the nominal period 1/50. -/
theorem C2_trial_range_is_nominal_witness :
    (0 : ℚ) < 1 / 50
  ∧ periodStep [0] 1 (1 / 50) ⟨0, none, none, none⟩ 50
      = some ⟨1, some (trialPeriod (1 / 50) 50), some [1], some [0, 1 / 50]⟩
  ∧ (1 / 50 : ℚ) < 1 / 25
  ∧ (((⟨1, some (trialPeriod (1 / 50) 50), some [1], some [0, 1 / 50]⟩ :
        SearchState).best_bins = (⟨0, none, none, none⟩ : SearchState).best_bins
      ∨ (⟨1, some (trialPeriod (1 / 50) 50), some [1], some [0, 1 / 50]⟩ :
        SearchState).best_bins = some (histEdges 1 0 (1 / 50)))
    ∧ ((⟨1, some (trialPeriod (1 / 50) 50), some [1], some [0, 1 / 50]⟩ :
        SearchState).best_contents = (⟨0, none, none, none⟩ : SearchState).best_contents
      ∨ (⟨1, some (trialPeriod (1 / 50) 50), some [1], some [0, 1 / 50]⟩ :
        SearchState).best_contents = some (trialContents [0] 1 (1 / 50) 50))
    ∧ ∀ j, j < 1 → inBin 1 j 0 (1 / 50) (1 / 25) = false) :=
  ⟨by norm_num, by decide, by norm_num,
   C2_trial_range_is_nominal [0] 1 (1 / 50) ⟨0, none, none, none⟩
     ⟨1, some (trialPeriod (1 / 50) 50), some [1], some [0, 1 / 50]⟩ 50 (1 / 25)
     (by norm_num) (by decide) (by norm_num)⟩

/-- Counterexample to C2 as stated: with the single candidate timestamp
`1/50 + 49/10000000` and trial index 50 (trial period `1/50 + 5/1000000`),
the histogram over the spec's hypothesis-dependent range counts the folded
value, while the code's fixed nominal range drops it. -/
theorem C2_cex_range_not_hypothesis_dependent :
    trialContentsSpecRange [1 / 50 + 49 / 10000000] 1 (1 / 50) 50 = [1]
  ∧ trialContents [1 / 50 + 49 / 10000000] 1 (1 / 50) 50 = [0]
  ∧ trialContentsSpecRange [1 / 50 + 49 / 10000000] 1 (1 / 50) 50
      ≠ trialContents [1 / 50 + 49 / 10000000] 1 (1 / 50) 50 := by
  refine ⟨by decide, by decide, by decide⟩

/-- Claim C3 (code bug). The window selector's neighbor reads are not
guarded at the histogram boundaries: on the single-candidate input `[0]`
the winning histogram has one bin, the peak bin is the last bin, and the
read `best_contents[ibin + 1]` is out of range, so `find_pedestals`
raises `IndexError` (modelled as `none`) instead of returning a mask.
(The left read `best_contents[ibin - 1]` at peak bin 0 is the numpy
wraparound read of the last bin, also unguarded; see `npGet`.) -/
theorem C3_boundary_read_raises : find_pedestals [0] 50 = none := by decide

/-- Claim C4 (corrected; see `removeBrightest_count_and_order` for the
amended property). Counterexample to the stated tie-break: with eleven
selected events of equal intensity, the code (a descending order obtained
by reversing an ascending argsort) removes the ten **later** events and
keeps event 0, while the claim's stable-original-order tie-break
(`removeBrightestStable`) removes the ten earliest events and keeps
event 10. -/
theorem C4_cex_ties_not_stable_order :
    removeBrightest (List.replicate 11 true) (List.replicate 11 5)
      = true :: List.replicate 10 false
  ∧ removeBrightestStable (List.replicate 11 true) (List.replicate 11 5)
      = List.replicate 10 false ++ [true]
  ∧ removeBrightest (List.replicate 11 true) (List.replicate 11 5)
      ≠ removeBrightestStable (List.replicate 11 true) (List.replicate 11 5) := by
  refine ⟨by decide, by decide, by decide⟩

/-- Claim C4 (corrected), amended property: the contamination remover
flips exactly `min(10, T)` entries from `True` to `False` (`T` the number
of `True` entries), never creates a `True`, and every flipped event's
NaN-cleaned intensity is at least that of every `True` event it keeps;
the order among equal intensities is the sort's, not stable original
order (see the counterexample). -/
theorem removeBrightest_count_and_order_thm (pedmask : List Bool) (vals : List ℚ)
    (hlen : vals.length = pedmask.length) :
    (removeBrightest pedmask vals).length = pedmask.length
  ∧ (removeBrightest pedmask vals).count true
      = pedmask.count true - min 10 (pedmask.count true)
  ∧ (∀ k : ℕ, (removeBrightest pedmask vals)[k]? = some true → pedmask[k]? = some true)
  ∧ ∀ i j : ℕ, pedmask[i]? = some true → (removeBrightest pedmask vals)[i]? = some false →
      (removeBrightest pedmask vals)[j]? = some true → val0 vals j ≤ val0 vals i :=
  removeBrightest_count_and_order pedmask vals hlen

/-- Witness for C4 at a concrete three-event mask. -/
theorem removeBrightest_count_and_order_witness :
    ([3, 1, 2] : List ℚ).length = [true, false, true].length
  ∧ ((removeBrightest [true, false, true] [3, 1, 2]).length = [true, false, true].length
    ∧ (removeBrightest [true, false, true] [3, 1, 2]).count true
        = [true, false, true].count true - min 10 ([true, false, true].count true)
    ∧ (∀ k : ℕ, (removeBrightest [true, false, true] [3, 1, 2])[k]? = some true →
        [true, false, true][k]? = some true)
    ∧ ∀ i j : ℕ, [true, false, true][i]? = some true →
        (removeBrightest [true, false, true] [3, 1, 2])[i]? = some false →
        (removeBrightest [true, false, true] [3, 1, 2])[j]? = some true →
        val0 [3, 1, 2] j ≤ val0 [3, 1, 2] i) :=
  ⟨rfl, removeBrightest_count_and_order_thm [true, false, true] [3, 1, 2] rfl⟩

/-- Claim C5 (confirmed). Any event the pre-filter excludes (defined
intensity above 3e4 and defined concentration below 0.005) is `False` in
the scattered mask and still `False` in the final mask after the
contamination remover (which never sets an entry to `True`). -/
theorem C5_excluded_events_stay_false (tbl : EventTable) (rn k : ℕ) (v c : ℚ)
    (pm m : List Bool)
    (hpm : pedmaskOf tbl rn = some pm)
    (hm : pipeline tbl rn = some m)
    (hv : tbl.intensity[k]? = some (some v)) (hv30 : (30000 : ℚ) < v)
    (hc : tbl.concentration_pixel[k]? = some (some c)) (hc5 : c < 1 / 200) :
    pm[k]? = some false ∧ m[k]? = some false :=
  pipeline_excluded_false tbl rn k v c pm m hpm hm hv hv30 hc hc5

/-- Witness for C5: the three-event table `wtbl`, whose event 0 is
excluded by the pre-filter; the pipeline succeeds and both masks hold
`False` at index 0. -/
theorem C5_excluded_events_stay_false_witness :
    pedmaskOf wtbl 100 = some [false, false, false]
  ∧ pipeline wtbl 100 = some [false, false, false]
  ∧ wtbl.intensity[0]? = some (some 40000)
  ∧ (30000 : ℚ) < 40000
  ∧ wtbl.concentration_pixel[0]? = some (some (1 / 1000))
  ∧ (1 / 1000 : ℚ) < 1 / 200
  ∧ ([false, false, false] : List Bool)[0]? = some false
  ∧ ([false, false, false] : List Bool)[0]? = some false :=
  ⟨by decide, by decide, by decide, by decide, by decide, by decide,
   (C5_excluded_events_stay_false wtbl 100 0 40000 (1 / 1000)
     [false, false, false] [false, false, false]
     (by decide) (by decide) (by decide) (by decide) (by decide) (by decide)).1,
   (C5_excluded_events_stay_false wtbl 100 0 40000 (1 / 1000)
     [false, false, false] [false, false, false]
     (by decide) (by decide) (by decide) (by decide) (by decide) (by decide)).2⟩

/-- Claim C6 (confirmed). When the candidate set is empty the bin count
`nbins = len(timestamps)` is 0, the very first `np.histogram` call raises
`ValueError`, and `find_pedestals` aborts without producing any mask. -/
theorem C6_empty_candidates_fail (ts : List ℚ) (freq : ℚ) (h : ts.length = 0) :
    find_pedestals ts freq = none := by
  have hts : ts = [] := List.length_eq_zero.mp h
  subst hts
  have hstep : ∀ (st : SearchState) (i : ℤ),
      periodStep [] ([] : List ℚ).length (1 / freq) st i = none := by
    intro st i
    simp [periodStep, npHistogram]
  have hper : periodSearch [] freq = none := by
    rw [periodSearch]
    obtain ⟨x, rest, hx⟩ :=
      List.exists_cons_of_ne_nil (by decide : period_step_range ≠ [])
    rw [hx, List.foldlM_cons, hstep]
    rfl
  rw [find_pedestals, hper]
  rfl

/-- Witness for C6 at the empty candidate list. -/
theorem C6_empty_candidates_fail_witness :
    ([] : List ℚ).length = 0 ∧ find_pedestals [] 50 = none :=
  ⟨rfl, C6_empty_candidates_fail [] 50 rfl⟩

/-- Claim C7 (corrected), amended property: the 1000 trial phases
`np.linspace(0, best_period, 1000)` are evenly spaced over the **closed**
interval `[0, best_period]`: every trial phase `p` satisfies
`0 ≤ p ≤ best_period`, and `best_period` itself is the last phase tried
(its fold coincides with phase 0). -/
theorem C7_phase_grid_closed (P : ℚ) (hP : 0 ≤ P) :
    (∀ ph ∈ phaseGrid P, 0 ≤ ph ∧ ph ≤ P) ∧ P ∈ phaseGrid P := by
  constructor
  · intro ph hph
    rw [phaseGrid] at hph
    obtain ⟨k, hk, rfl⟩ := List.mem_map.mp hph
    have hk' : k ≤ 999 := Nat.le_of_lt_succ (List.mem_range.mp hk)
    have h9 : (0 : ℚ) ≤ P / 999 := by positivity
    constructor
    · exact mul_nonneg (Nat.cast_nonneg k) h9
    · calc (k : ℚ) * (P / 999) ≤ ((999 : ℕ) : ℚ) * (P / 999) :=
            mul_le_mul_of_nonneg_right (by exact_mod_cast hk') h9
        _ = P := phaseGrid_endpoint P
  · exact mem_phaseGrid_last P

/-- Witness for C7 at `P = 1/50`. -/
theorem C7_phase_grid_closed_witness :
    (0 : ℚ) ≤ 1 / 50
  ∧ ((∀ ph ∈ phaseGrid (1 / 50), 0 ≤ ph ∧ ph ≤ 1 / 50)
      ∧ (1 / 50 : ℚ) ∈ phaseGrid (1 / 50)) :=
  ⟨by norm_num, C7_phase_grid_closed (1 / 50) (by norm_num)⟩

/-- Counterexample to C7 as stated: on input `[0]` the period stage
returns `best_period = 4001/200000`, and that very value is a member of
the phase grid the phase stage then scans — the endpoint `best_period` is
tried, so not every trial phase is `< best_period`. -/
theorem C7_cex_endpoint_tried :
    periodSearch [0] 50
      = some ⟨1, some (4001 / 200000), some [1], some [0, 1 / 50]⟩
  ∧ (4001 / 200000 : ℚ) ∈ phaseGrid (4001 / 200000)
  ∧ ¬((4001 / 200000 : ℚ) < 4001 / 200000) :=
  ⟨by decide, mem_phaseGrid_last _, lt_irrefl _⟩

/-- Claim C8 (confirmed). The pipeline is a pure function of the input
table and the run number: two runs on equal inputs give equal period-stage
results, equal candidate masks, and equal final selection masks. -/
theorem C8_deterministic (t1 t2 : EventTable) (r1 r2 : ℕ) (ht : t1 = t2) (hr : r1 = r2) :
    periodSearch (candTimes t1) (nominalFrequency r1)
        = periodSearch (candTimes t2) (nominalFrequency r2)
  ∧ find_pedestals (candTimes t1) (nominalFrequency r1)
        = find_pedestals (candTimes t2) (nominalFrequency r2)
  ∧ pipeline t1 r1 = pipeline t2 r2 := by
  subst ht
  subst hr
  exact ⟨rfl, rfl, rfl⟩

/-- Witness for C8 on the empty table. -/
theorem C8_deterministic_witness :
    etbl = etbl ∧ (0 : ℕ) = 0
  ∧ (periodSearch (candTimes etbl) (nominalFrequency 0)
        = periodSearch (candTimes etbl) (nominalFrequency 0)
    ∧ find_pedestals (candTimes etbl) (nominalFrequency 0)
        = find_pedestals (candTimes etbl) (nominalFrequency 0)
    ∧ pipeline etbl 0 = pipeline etbl 0) :=
  ⟨rfl, rfl, C8_deterministic etbl etbl 0 0 rfl rfl⟩

/-- Claim C9 (confirmed). When the winning phase histogram peaks in bin 0
and the wraparound left-neighbor check fires (the numpy read
`best_contents[-1]`, i.e. the last bin, exceeds a tenth of the peak), the
window's lower edge `best_bins[ifirst] = best_bins[-1]` is the final bin
edge, equal to `best_period`; every folded timestamp is strictly below
`best_period`, so the returned candidate mask is all `False`. -/
theorem C9_wraparound_window_empty (ts : List ℚ) (phase P : ℚ) (contents : List ℕ)
    (n : ℕ) (mask : List Bool) (hP : 0 < P) (hn : n ≠ 0)
    (hpeak : argmax contents = 0)
    (hwrap : (1 / 10 : ℚ) * ((contents.headD 0 : ℕ) : ℚ)
      < ((contents.getLastD 0 : ℕ) : ℚ))
    (hres : windowSelect contents (histEdges n 0 P)
        (ts.map (fun t => pymod (t + phase) P)) = some mask) :
    npGet (histEdges n 0 P) (-1) = some P ∧ mask = List.replicate ts.length false :=
  window_wraparound_all_false ts phase P contents n mask hP hn hpeak hwrap hres

/-- Witness for C9: a two-bin histogram `[5, 1]` peaking at bin 0 whose
last bin passes the 10% check; the selector returns the all-`False`
mask. -/
theorem C9_wraparound_window_empty_witness :
    (0 : ℚ) < 1 / 50 ∧ (2 : ℕ) ≠ 0 ∧ argmax [5, 1] = 0
  ∧ (1 / 10 : ℚ) * ((([5, 1] : List ℕ).headD 0 : ℕ) : ℚ)
      < ((([5, 1] : List ℕ).getLastD 0 : ℕ) : ℚ)
  ∧ windowSelect [5, 1] (histEdges 2 0 (1 / 50))
      (([0, 1 / 100] : List ℚ).map (fun t => pymod (t + 0) (1 / 50)))
      = some [false, false]
  ∧ (npGet (histEdges 2 0 (1 / 50)) (-1) = some (1 / 50)
    ∧ [false, false] = List.replicate ([0, 1 / 100] : List ℚ).length false) :=
  ⟨by norm_num, by decide, by decide, by decide, by decide,
   C9_wraparound_window_empty [0, 1 / 100] 0 (1 / 50) [5, 1] 2 [false, false]
     (by norm_num) (by decide) (by decide) (by decide) (by decide)⟩

/-- Claim C10 (confirmed). For a nonempty candidate list the period loop's
first iteration always updates the running best (`np.max(contents) < 0`
is impossible), so the loop ends with `best_period`, `best_contents` and
`best_bins` all set (not `None`) when the phase stage and the window
selector use them. -/
theorem C10_period_stage_always_sets_best (ts : List ℚ) (freq : ℚ) (hne : ts ≠ []) :
    ∃ st, periodSearch ts freq = some st
      ∧ st.best_period.isSome = true ∧ st.best_contents.isSome = true
      ∧ st.best_bins.isSome = true :=
  periodSearch_isSome ts freq hne

/-- Witness for C10 at the single-timestamp input `[0]`. -/
theorem C10_period_stage_always_sets_best_witness :
    ([0] : List ℚ) ≠ []
  ∧ ∃ st, periodSearch [0] 50 = some st
      ∧ st.best_period.isSome = true ∧ st.best_contents.isSome = true
      ∧ st.best_bins.isSome = true :=
  ⟨by decide, C10_period_stage_always_sets_best [0] 50 (by decide)⟩
